import Mathlib

/-!
Verification of the cast-search aggregation pipeline of the fcs-v0 repository
(`casts-search-weighted` endpoint, `src/app/api/endpoints/casts.py`, together
with its helpers in `src/app/utils/helpers.py` and `src/app/db/mongo.py`).

The Python code is shallowly embedded: strings are `List Char` / `String`,
Python `None`-able values are `Option`, numeric scores are `ℚ`, dictionaries
are functions to `Option`, and the stateful endpoint handler is modelled as an
explicit state-passing function that also records the queries it issues
against the graph store.
-/

namespace FCS

/-! ## Query sanitizer (src/app/utils/helpers.py, clean_query_for_lucene) -/

/-- The characters replaced by spaces in `clean_query_for_lucene`
(helpers.py line 25).  Backslash, double quote and the two braces are written
via their code points (92, 34, 123, 125). -/
def special_chars : List Char :=
  ['/', Char.ofNat 92, '+', '-', '&', '|', '!', '(', ')', Char.ofNat 123,
   Char.ofNat 125, '[', ']', '^', '~', '*', '?', ':', Char.ofNat 34]

/-- Membership in `special_chars`. -/
def is_special_char (c : Char) : Bool :=
  decide (c ∈ special_chars)

/-- Python `s.replace(c, ' ')` for a single character `c`. -/
def replace_one (s : List Char) (c : Char) : List Char :=
  s.map fun x => if x = c then ' ' else x

/-- The sequential `for char in special_chars: cleaned = cleaned.replace(char, ' ')`
loop of helpers.py lines 28-29. -/
def replace_special_chars (s : List Char) : List Char :=
  special_chars.foldl replace_one s

/-- The whitespace characters recognised by Python `str.split()` (modelled on
the ASCII range: space, tab, newline, carriage return, vertical tab 11,
form feed 12). -/
def is_py_space (c : Char) : Bool :=
  c = ' ' || c = '\t' || c = '\n' || c = '\r' || c = Char.ofNat 11 || c = Char.ofNat 12

/-- Longest whitespace-free prefix: the next word extracted by `str.split()`. -/
def take_word : List Char → List Char
  | [] => []
  | c :: r => if is_py_space c then [] else c :: take_word r

/-- Rest of the string after the next word. -/
def drop_word : List Char → List Char
  | [] => []
  | c :: r => if is_py_space c then c :: r else drop_word r

theorem drop_word_length_le (l : List Char) : (drop_word l).length ≤ l.length := by
  induction l with
  | nil => simp [drop_word]
  | cons c r ih =>
    simp only [drop_word]
    split
    · simp
    · exact Nat.le_succ_of_le ih

/-- Python `str.split()`: the list of maximal whitespace-free words, empty
chunks discarded. -/
def split_whitespace (s : List Char) : List (List Char) :=
  match s with
  | [] => []
  | c :: r =>
    if is_py_space c then split_whitespace r
    else (c :: take_word r) :: split_whitespace (drop_word r)
  termination_by s.length
  decreasing_by
  · simp
  · simpa using Nat.lt_succ_of_le (drop_word_length_le r)

/-- Python `' '.join(words)`. -/
def join_with_space : List (List Char) → List Char
  | [] => []
  | [w] => w
  | w :: v :: ws => w ++ ' ' :: join_with_space (v :: ws)

/-- helpers.py `clean_query_for_lucene`, on character lists: empty (falsy)
input yields the empty string, otherwise replace every special character by a
space and re-join the whitespace-split words with single spaces. -/
def clean_query_for_lucene (s : List Char) : List Char :=
  if s = [] then []
  else join_with_space (split_whitespace (replace_special_chars s))

/-- `clean_query_for_lucene` on `String`. -/
def clean_query_str (s : String) : String :=
  String.mk (clean_query_for_lucene s.data)

/-! ## Data model (src/app/api/endpoints/casts.py) -/

/-- An entry of the `linkedAccounts` list returned by the enrichment query. -/
structure LinkedAccount where
  platform : Option String
  username : Option String
deriving DecidableEq

/-- An entry of the `linkedWallets` list returned by the enrichment query. -/
structure LinkedWallet where
  address : Option String
  network : Option String
deriving DecidableEq

/-- A document returned by the MongoDB Atlas search over the casts collection;
exactly the keys read in casts.py lines 114-127, absent keys are `none`. -/
structure MongoCast where
  hash : Option String
  timestamp : Option String
  createdAt : Option String
  text : Option String
  author : Option String
  authorFid : Option Int
  likeCount : Option Int
  replyCount : Option Int
  mentionedChannelIds : Option (List String)
  mentionedUsernames : Option (List String)
  score : Option ℚ
deriving DecidableEq

/-- Python `a or b` for an optional string `a` (both `None` and the empty
string are falsy) with a string fallback `b`. -/
def py_or_str (a : Option String) (b : String) : String :=
  match a with
  | some s => if s = "" then b else s
  | none => b

/-- The normalised search hit built from a Mongo document in casts.py
lines 114-127 (`author_bio` is always the empty string at this stage). -/
structure ProcessedCast where
  hash : Option String
  timestamp : String
  text : String
  author_username : String
  author_fid : Option Int
  author_bio : String
  likeCount : Int
  replyCount : Int
  mentionedChannels : List String
  mentionedUsers : List String
  relevanceScore : ℚ
deriving DecidableEq

/-- casts.py lines 114-127: normalise one Mongo document
(`cast.get("timestamp") or cast.get("createdAt", "")` falls through on a
missing or empty timestamp). -/
def process_mongo_cast (c : MongoCast) : ProcessedCast :=
  { hash := c.hash
    timestamp := py_or_str c.timestamp (c.createdAt.getD "")
    text := c.text.getD ""
    author_username := c.author.getD ""
    author_fid := c.authorFid
    author_bio := ""
    likeCount := c.likeCount.getD 0
    replyCount := c.replyCount.getD 0
    mentionedChannels := c.mentionedChannelIds.getD []
    mentionedUsers := c.mentionedUsernames.getD []
    relevanceScore := c.score.getD 0 }

/-! ## Search fetcher (src/app/db/mongo.py and casts.py search_casts) -/

/-- The state of the Mongo document store: whether `init_mongodb` succeeded
(`async_db is None` otherwise), whether the aggregate call raises, and the
backend-defined relevance-ordered match list for each query. -/
structure MongoState where
  connected : Bool
  raises : Bool
  searchResult : String → List MongoCast

/-- mongo.py `search_mongo_casts`: return `[]` when the connection was never
initialised, raise on a backend error, otherwise run the aggregation whose
`limit` stage keeps the first `limit` matches and whose `to_list(length=limit)`
keeps at most `limit` again. -/
def search_mongo_casts (st : MongoState) (query : String) (limit : Nat) :
    Except String (List MongoCast) :=
  if st.connected = false then .ok []
  else if st.raises then .error "backend failure"
  else .ok (((st.searchResult query).take limit).take limit)

/-- casts.py `search_casts`: any exception from the backend is caught and
degrades to an empty result list. -/
def search_casts (st : MongoState) (query : String) (limit : Nat) : List MongoCast :=
  match search_mongo_casts st query limit with
  | .ok results => results
  | .error _ => []

/-! ## Identity enricher (casts.py lines 144-209) -/

/-- A row returned by the FID enrichment cypher query (casts.py
lines 152-176). -/
structure EnrichmentRecord where
  fid : Option String
  authorUsername : Option String
  authorBio : Option String
  fcCredScore : Option ℚ
  walletEthStablesValueUsd : ℚ
  farcaster_usdc_rewards_earned : ℚ
  linkedAccounts : List LinkedAccount
  linkedWallets : List LinkedWallet
deriving DecidableEq

/-- The per-FID dictionary value built in casts.py lines 197-205. -/
structure EnrichData where
  authorUsername : Option String
  authorBio : Option String
  fcCredScore : Option ℚ
  walletEthStablesValueUsd : ℚ
  farcaster_usdc_rewards_earned : ℚ
  linkedAccounts : List LinkedAccount
  linkedWallets : List LinkedWallet
deriving DecidableEq

/-- Copy the data fields of a row into the dictionary value. -/
def enrich_data_of_record (r : EnrichmentRecord) : EnrichData :=
  { authorUsername := r.authorUsername
    authorBio := r.authorBio
    fcCredScore := r.fcCredScore
    walletEthStablesValueUsd := r.walletEthStablesValueUsd
    farcaster_usdc_rewards_earned := r.farcaster_usdc_rewards_earned
    linkedAccounts := r.linkedAccounts
    linkedWallets := r.linkedWallets }

/-- casts.py lines 193-205: build the fid -> enrichment-data dictionary.
Rows with a falsy fid (absent or empty string) are skipped; a later row with
the same fid overwrites an earlier one, as in a Python dict. -/
def build_fid_enrichment_map (rs : List EnrichmentRecord) : String → Option EnrichData :=
  rs.foldl
    (fun m r =>
      match r.fid with
      | some f =>
        if f = "" then m
        else fun k => if k = f then some (enrich_data_of_record r) else m k
      | none => m)
    (fun _ => none)

/-- Python `str` applied to an optional integer fid (`str(None) = "None"`). -/
def str_of_fid : Option Int → String
  | none => "None"
  | some n => toString n

/-- casts.py line 145: the stringified fids of the hits whose `author_fid` is
truthy (neither `None` nor `0`). -/
def mongo_fids (hits : List ProcessedCast) : List String :=
  hits.filterMap fun c =>
    match c.author_fid with
    | some n => if n = 0 then none else some (toString n)
    | none => none

/-- casts.py line 146: `list(set(mongo_fids))`. -/
def all_fids (hits : List ProcessedCast) : List String :=
  (mongo_fids hits).dedup

/-- A Python exception: a FastAPI `HTTPException` or a generic error. -/
inductive PyExc where
  | http (status : Nat) (detail : String)
  | err (msg : String)
deriving DecidableEq

/-- Python `str` of an exception (starlette's HTTPException prints
"status: detail"). -/
def str_of_exc : PyExc → String
  | .http status detail => toString status ++ ": " ++ detail
  | .err msg => msg

/-- The cypher queries the endpoint issues against the graph store. -/
inductive CypherQuery where
  | usageCounter
  | connectionCheck
  | fidEnrichment (fids : List String)
deriving DecidableEq

/-- Whether a query is the batched author-enrichment lookup. -/
def is_enrichment_lookup : CypherQuery → Bool
  | .fidEnrichment _ => true
  | _ => false

/-- The graph store: the ApiUsage node (absent, or present with a possibly
null `queryCounter`), availability at the two call sites, and the
backend-defined rows produced by the enrichment query for a given fid list. -/
structure Neo4jState where
  usageNode : Option (Option Int)
  upAtUsage : Bool
  upAtEnrichment : Bool
  enrichResult : List String → List EnrichmentRecord

/-- The usage query of casts.py lines 78-84: `MATCH (node:ApiUsage ...) SET
node.queryCounter = COALESCE(node.queryCounter, 0) + 1 RETURN counter`.
It raises when the store is unreachable and matches no row (updating nothing)
when the node is absent. -/
def execute_usage_query (neo : Neo4jState) : Neo4jState × Except PyExc (List Int) :=
  if neo.upAtUsage = false then (neo, .error (.err "neo4j unavailable"))
  else
    match neo.usageNode with
    | none => (neo, .ok [])
    | some counter =>
      let c := counter.getD 0 + 1
      ({ neo with usageNode := some (some c) }, .ok [c])

/-- casts.py lines 178-190: when the fid list is non-empty, issue a `RETURN 1`
connection check followed by the single batched enrichment query; a raise from
either call is caught locally and degrades to an empty row list. -/
def run_fid_enrichment (neo : Neo4jState) (fids : List String) :
    List CypherQuery × List EnrichmentRecord :=
  if fids = [] then ([], [])
  else if neo.upAtEnrichment then
    ([.connectionCheck, .fidEnrichment fids], neo.enrichResult fids)
  else ([.connectionCheck], [])

/-! ## Merger and scorer (casts.py lines 211-312) -/

/-- The merged record built for each hit (casts.py lines 217-231). -/
structure EnrichedCast where
  hash : Option String
  timestamp : String
  text : String
  author_username : String
  author_fid : Option Int
  author_bio : String
  author_farcaster_cred_score : Option ℚ
  wallet_eth_stables_value_usd : ℚ
  farcaster_usdc_rewards_earned : ℚ
  linked_accounts : List LinkedAccount
  linked_wallets : List LinkedWallet
  source : String
deriving DecidableEq

/-- casts.py lines 213-247: build one enriched record with the documented
defaults and override from the enrichment map when the stringified fid has an
entry (the `if fid and ...` truthiness guard is vacuous because `str(x)` is
always a non-empty string). -/
def enrich_cast (fidMap : String → Option EnrichData) (c : ProcessedCast) : EnrichedCast :=
  let base : EnrichedCast :=
    { hash := c.hash
      timestamp := c.timestamp
      text := c.text
      author_username := c.author_username
      author_fid := c.author_fid
      author_bio := ""
      author_farcaster_cred_score := none
      wallet_eth_stables_value_usd := 0
      farcaster_usdc_rewards_earned := 0
      linked_accounts := []
      linked_wallets := []
      source := "mongo_raw" }
  match fidMap (str_of_fid c.author_fid) with
  | some enr =>
    { base with
      author_username := py_or_str enr.authorUsername c.author_username
      author_bio := py_or_str enr.authorBio ""
      author_farcaster_cred_score := enr.fcCredScore
      wallet_eth_stables_value_usd := enr.walletEthStablesValueUsd
      farcaster_usdc_rewards_earned := enr.farcaster_usdc_rewards_earned
      linked_accounts := enr.linkedAccounts
      linked_wallets := enr.linkedWallets
      source := "mongo_enriched" }
  | none => base

/-- casts.py line 253: stable sort by timestamp, descending
(`combined_casts.sort(key=lambda x: ..., reverse=True)`). -/
def sort_by_timestamp_desc (l : List EnrichedCast) : List EnrichedCast :=
  l.mergeSort fun a b => decide (b.timestamp ≤ a.timestamp)

/-- The merge step of casts.py lines 211-254: enrich every hit, keep them all
(`combined_casts = enriched_mongo_casts`), then sort by timestamp
descending. -/
def combine_and_sort (fidMap : String → Option EnrichData) (hits : List ProcessedCast) :
    List EnrichedCast :=
  sort_by_timestamp_desc (hits.map (enrich_cast fidMap))

/-- casts.py lines 288-289: the credibility scores that are present
(`is not None`). -/
def cred_scores (l : List EnrichedCast) : List ℚ :=
  l.filterMap fun c => c.author_farcaster_cred_score

/-- casts.py line 290: mean of the present credibility scores, `0` when none
are present. -/
def avg_cred_score (l : List EnrichedCast) : ℚ :=
  if cred_scores l = [] then 0 else (cred_scores l).sum / ((cred_scores l).length : ℚ)

/-- casts.py lines 293-296: the distinct truthy author fids. -/
def unique_authors (l : List EnrichedCast) : List Int :=
  (l.filterMap fun c =>
    match c.author_fid with
    | some n => if n = 0 then none else some n
    | none => none).dedup

/-- casts.py line 299: `min(1.0, len(unique_authors) / max(1, casts_count))`. -/
def diversity_multiplier (l : List EnrichedCast) : ℚ :=
  min 1 (((unique_authors l).length : ℚ) / ((max 1 l.length : ℕ) : ℚ))

/-- casts.py line 302: `casts_count * avg_cred_score`. -/
def raw_weighted_score (l : List EnrichedCast) : ℚ :=
  (l.length : ℚ) * avg_cred_score l

/-- casts.py line 303: `raw_weighted_score * diversity_multiplier`. -/
def weighted_score (l : List EnrichedCast) : ℚ :=
  raw_weighted_score l * diversity_multiplier l

/-- The metrics dictionary of casts.py lines 306-312. -/
structure Metrics where
  casts : Nat
  uniqueAuthors : Nat
  rawWeightedScore : ℚ
  diversityMultiplier : ℚ
  weighted_score : ℚ
deriving DecidableEq

/-- casts.py lines 284-312. -/
def compute_metrics (l : List EnrichedCast) : Metrics :=
  { casts := l.length
    uniqueAuthors := (unique_authors l).length
    rawWeightedScore := raw_weighted_score l
    diversityMultiplier := diversity_multiplier l
    weighted_score := weighted_score l }

/-! ## The endpoint handler (casts.py fetch_weighted_casts) -/

/-- The JSON payload of a successful response (casts.py lines 320-324). -/
structure BodyResult where
  casts : List EnrichedCast
  total : Nat
  metrics : Metrics
deriving DecidableEq

/-- The observable outcome of one request. -/
inductive HandlerResult where
  | ok (body : BodyResult)
  | httpError (status : Nat) (detail : String)
deriving DecidableEq

/-- The two backing stores reachable from the endpoint. -/
structure SysState where
  neo4j : Neo4jState
  mongo : MongoState

/-- The pipeline stages after the quota check (casts.py lines 89-324):
sanitize the query, search Mongo with limit 100, normalise the hits, collect
the distinct fids, run the batched enrichment, merge, sort and score.  The
debug JSON dump (lines 275-282) is I/O-only and not part of the functional
contract, so it is not modelled. -/
def run_pipeline (st : SysState) (query : String) :
    SysState × List CypherQuery × Except PyExc BodyResult :=
  let cleanq := clean_query_str query
  let hits := (search_casts st.mongo cleanq 100).map process_mongo_cast
  let fids := all_fids hits
  let er := run_fid_enrichment st.neo4j fids
  let fidMap := build_fid_enrichment_map er.2
  let combined := combine_and_sort fidMap hits
  (st, CypherQuery.usageCounter :: er.1,
    .ok { casts := combined, total := combined.length, metrics := compute_metrics combined })

/-- The body of the try block (casts.py lines 77-324): increment-and-read the
usage counter, raise a 429 HTTPException when the returned (already
incremented) counter exceeds 250, else run the pipeline. -/
def run_body (st : SysState) (query : String) :
    SysState × List CypherQuery × Except PyExc BodyResult :=
  match execute_usage_query st.neo4j with
  | (neo1, .error e) => ({ st with neo4j := neo1 }, [CypherQuery.usageCounter], .error e)
  | (neo1, .ok counters) =>
    match counters with
    | c :: _ =>
      if c > 250 then
        ({ st with neo4j := neo1 }, [CypherQuery.usageCounter],
          .error (.http 429 "USAGE EXCEEDED"))
      else run_pipeline { st with neo4j := neo1 } query
    | [] => run_pipeline { st with neo4j := neo1 } query

/-- The endpoint handler (casts.py lines 62-328).  A mismatching api key is
rejected with 401 before the try block and before any backend access.  The
try block's blanket `except Exception` catches every escaping exception —
fastapi's HTTPException included, since it subclasses Exception — and
re-raises it as `HTTPException(500, "Database error: " + str(e))`. -/
def fetch_weighted_casts (secret : String) (st : SysState) (api_key : String)
    (query : String) : SysState × List CypherQuery × HandlerResult :=
  if api_key ≠ secret then (st, [], .httpError 401 "Invalid API key")
  else
    match run_body st query with
    | (st2, qlog, .ok body) => (st2, qlog, .ok body)
    | (st2, qlog, .error e) =>
      (st2, qlog, .httpError 500 ("Database error: " ++ str_of_exc e))

/-! ### Concrete fixtures used by the closed theorems -/

/-- A search backend with no matching documents. -/
def empty_search : String → List MongoCast := fun _ => []

/-- A Mongo store whose connection was never initialised. -/
def mongo_down : MongoState :=
  { connected := false, raises := false, searchResult := empty_search }

/-- A healthy graph store whose usage counter starts at 0 and whose
enrichment query returns no rows. -/
def neo_up : Neo4jState :=
  { usageNode := some (some 0), upAtUsage := true, upAtEnrichment := true,
    enrichResult := fun _ => [] }

/-- System state whose usage counter sits exactly at the threshold value. -/
def sys_quota : SysState :=
  { neo4j := { usageNode := some (some 250), upAtUsage := true, upAtEnrichment := true,
               enrichResult := fun _ => [] },
    mongo := mongo_down }

/-- A healthy system state. -/
def sys_ok : SysState := { neo4j := neo_up, mongo := mongo_down }

/-- A processed search hit. -/
def p1 : ProcessedCast :=
  { hash := some "0xabc", timestamp := "2025-01-02", text := "gm",
    author_username := "alice", author_fid := some 1, author_bio := "",
    likeCount := 0, replyCount := 0, mentionedChannels := [], mentionedUsers := [],
    relevanceScore := 1 }

/-- A second hit with the same content hash as `p1`. -/
def p2 : ProcessedCast :=
  { p1 with timestamp := "2025-01-01", author_username := "bob", author_fid := some 2 }

/-- A merged record with the given author fid and credibility score. -/
def base_enriched (fid : Option Int) (cred : Option ℚ) : EnrichedCast :=
  { hash := some "0x01", timestamp := "t", text := "", author_username := "",
    author_fid := fid, author_bio := "", author_farcaster_cred_score := cred,
    wallet_eth_stables_value_usd := 0, farcaster_usdc_rewards_earned := 0,
    linked_accounts := [], linked_wallets := [], source := "mongo_raw" }

/-- Author 1, no credibility score. -/
def e_dup : EnrichedCast := base_enriched (some 1) none

/-- Author 1, credibility -1. -/
def e_neg : EnrichedCast := base_enriched (some 1) (some (-1))

/-- Author 1, credibility 2. -/
def e_a : EnrichedCast := base_enriched (some 1) (some 2)

/-- Author 2, credibility 2. -/
def e_b : EnrichedCast := base_enriched (some 2) (some 2)

/-! ### Sanitizer lemmas -/

theorem foldl_replace_one (L : List Char) (hL : ' ' ∉ L) (s : List Char) :
    L.foldl replace_one s = s.map (fun x => if decide (x ∈ L) then ' ' else x) := by
  induction L generalizing s with
  | nil =>
    simp [List.foldl]
  | cons c L ih =>
    have hL' : ' ' ∉ L := fun h => hL (List.mem_cons_of_mem _ h)
    have hcs : ¬ (' ' = c) := fun h => hL (h ▸ List.mem_cons_self _ _)
    simp only [List.foldl_cons, ih hL', replace_one, List.map_map]
    refine List.map_congr_left (fun x _ => ?_)
    by_cases hx : x = c
    · subst hx
      simp [hcs, fun h => hL' h]
    · simp [Function.comp, hx, List.mem_cons]

theorem replace_special_chars_eq_map (s : List Char) :
    replace_special_chars s = s.map (fun x => if is_special_char x then ' ' else x) := by
  have h : ' ' ∉ special_chars := by decide
  simpa [is_special_char] using foldl_replace_one special_chars h s

theorem mem_replace_special_chars {x : Char} {s : List Char}
    (hx : x ∈ replace_special_chars s) :
    x = ' ' ∨ (is_special_char x = false ∧ x ∈ s) := by
  rw [replace_special_chars_eq_map] at hx
  obtain ⟨a, ha, hfa⟩ := List.mem_map.mp hx
  by_cases hsp : is_special_char a
  · left
    simpa [hsp] using hfa.symm
  · right
    simp only [hsp, if_neg, Bool.false_eq_true, ite_false] at hfa
    exact hfa ▸ ⟨by simpa using hsp, ha⟩

theorem replace_special_chars_fixpoint {s : List Char}
    (h : ∀ x ∈ s, is_special_char x = false) :
    replace_special_chars s = s := by
  rw [replace_special_chars_eq_map]
  have : s.map (fun x => if is_special_char x then ' ' else x) = s.map id := by
    refine List.map_congr_left (fun x hx => ?_)
    simp [h x hx]
  simp [this]

theorem take_word_all {w : List Char} (h : ∀ c ∈ w, is_py_space c = false) :
    take_word w = w := by
  induction w with
  | nil => rfl
  | cons c r ih =>
    have hc := h c (List.mem_cons_self _ _)
    simp only [take_word, hc, Bool.false_eq_true, ite_false, List.cons.injEq, true_and]
    exact ih fun x hx => h x (List.mem_cons_of_mem _ hx)

theorem drop_word_all {w : List Char} (h : ∀ c ∈ w, is_py_space c = false) :
    drop_word w = [] := by
  induction w with
  | nil => rfl
  | cons c r ih =>
    have hc := h c (List.mem_cons_self _ _)
    simp only [drop_word, hc, Bool.false_eq_true, ite_false]
    exact ih fun x hx => h x (List.mem_cons_of_mem _ hx)

theorem take_word_word_space {w t : List Char} (h : ∀ c ∈ w, is_py_space c = false) :
    take_word (w ++ ' ' :: t) = w := by
  induction w with
  | nil => simp [take_word, is_py_space]
  | cons c r ih =>
    have hc := h c (List.mem_cons_self _ _)
    simp only [List.cons_append, take_word, hc, Bool.false_eq_true, ite_false,
      List.cons.injEq, true_and]
    exact ih fun x hx => h x (List.mem_cons_of_mem _ hx)

theorem drop_word_word_space {w t : List Char} (h : ∀ c ∈ w, is_py_space c = false) :
    drop_word (w ++ ' ' :: t) = ' ' :: t := by
  induction w with
  | nil => simp [drop_word, is_py_space]
  | cons c r ih =>
    have hc := h c (List.mem_cons_self _ _)
    simp only [List.cons_append, drop_word, hc, Bool.false_eq_true, ite_false]
    exact ih fun x hx => h x (List.mem_cons_of_mem _ hx)

theorem mem_take_word {c : Char} {l : List Char} (h : c ∈ take_word l) :
    is_py_space c = false ∧ c ∈ l := by
  induction l with
  | nil => simp [take_word] at h
  | cons d r ih =>
    simp only [take_word] at h
    split at h
    · simp at h
    · rcases List.mem_cons.mp h with h | h
      · subst h
        exact ⟨by simpa using ‹¬ is_py_space c = true›, List.mem_cons_self _ _⟩
      · exact ⟨(ih h).1, List.mem_cons_of_mem _ (ih h).2⟩

theorem mem_drop_word {c : Char} {l : List Char} (h : c ∈ drop_word l) : c ∈ l := by
  induction l with
  | nil => simp [drop_word] at h
  | cons d r ih =>
    simp only [drop_word] at h
    split at h
    · exact h
    · exact List.mem_cons_of_mem _ (ih h)

theorem split_whitespace_nil : split_whitespace [] = [] := by
  simp [split_whitespace]

theorem split_whitespace_space_cons {c : Char} (t : List Char) (h : is_py_space c = true) :
    split_whitespace (c :: t) = split_whitespace t := by
  rw [split_whitespace]
  simp [h]

theorem split_whitespace_all_nonspace {w : List Char} (hne : w ≠ [])
    (h : ∀ c ∈ w, is_py_space c = false) : split_whitespace w = [w] := by
  obtain ⟨c, r, rfl⟩ : ∃ c r, w = c :: r := by
    cases w with
    | nil => exact absurd rfl hne
    | cons c r => exact ⟨c, r, rfl⟩
  have hc := h c (List.mem_cons_self _ _)
  have hr : ∀ x ∈ r, is_py_space x = false := fun x hx => h x (List.mem_cons_of_mem _ hx)
  rw [split_whitespace]
  simp [hc, take_word_all hr, drop_word_all hr, split_whitespace_nil]

theorem split_whitespace_word_space {w t : List Char} (hne : w ≠ [])
    (h : ∀ c ∈ w, is_py_space c = false) :
    split_whitespace (w ++ ' ' :: t) = w :: split_whitespace t := by
  obtain ⟨c, r, rfl⟩ : ∃ c r, w = c :: r := by
    cases w with
    | nil => exact absurd rfl hne
    | cons c r => exact ⟨c, r, rfl⟩
  have hc := h c (List.mem_cons_self _ _)
  have hr : ∀ x ∈ r, is_py_space x = false := fun x hx => h x (List.mem_cons_of_mem _ hx)
  rw [List.cons_append, split_whitespace]
  simp only [hc, Bool.false_eq_true, ite_false, take_word_word_space hr,
    drop_word_word_space hr]
  rw [split_whitespace_space_cons t (by decide : is_py_space ' ' = true)]

theorem mem_split_whitespace {s : List Char} :
    ∀ w ∈ split_whitespace s, w ≠ [] ∧ ∀ c ∈ w, is_py_space c = false ∧ c ∈ s := by
  induction s using split_whitespace.induct with
  | case1 =>
    simp [split_whitespace_nil]
  | case2 c r hc ih =>
    rw [split_whitespace_space_cons r hc]
    intro w hw
    refine ⟨(ih w hw).1, fun x hx => ⟨(ih w hw).2 x hx |>.1,
      List.mem_cons_of_mem _ ((ih w hw).2 x hx |>.2)⟩⟩
  | case3 c r hc ih =>
    have hc' : is_py_space c = false := by simpa using hc
    rw [split_whitespace]
    simp only [hc', Bool.false_eq_true, ite_false]
    intro w hw
    rcases List.mem_cons.mp hw with hw | hw
    · subst hw
      refine ⟨by simp, fun x hx => ?_⟩
      rcases List.mem_cons.mp hx with hx | hx
      · subst hx
        exact ⟨hc', List.mem_cons_self _ _⟩
      · exact ⟨(mem_take_word hx).1, List.mem_cons_of_mem _ (mem_take_word hx).2⟩
    · refine ⟨(ih w hw).1, fun x hx => ⟨(ih w hw).2 x hx |>.1,
        List.mem_cons_of_mem _ (mem_drop_word ((ih w hw).2 x hx |>.2))⟩⟩

theorem mem_join_with_space {c : Char} :
    ∀ {ws : List (List Char)}, c ∈ join_with_space ws → c = ' ' ∨ ∃ w ∈ ws, c ∈ w := by
  intro ws
  induction ws with
  | nil => simp [join_with_space]
  | cons w tail ih =>
    cases tail with
    | nil =>
      intro h
      exact Or.inr ⟨w, List.mem_cons_self _ _, by simpa [join_with_space] using h⟩
    | cons v ws' =>
      intro h
      simp only [join_with_space] at h
      rcases List.mem_append.mp h with h | h
      · exact Or.inr ⟨w, List.mem_cons_self _ _, h⟩
      · rcases List.mem_cons.mp h with h | h
        · exact Or.inl h
        · rcases ih h with h | ⟨u, hu, hcu⟩
          · exact Or.inl h
          · exact Or.inr ⟨u, List.mem_cons_of_mem _ hu, hcu⟩

theorem split_join {ws : List (List Char)}
    (h : ∀ w ∈ ws, w ≠ [] ∧ ∀ c ∈ w, is_py_space c = false) :
    split_whitespace (join_with_space ws) = ws := by
  induction ws with
  | nil => simp [join_with_space, split_whitespace_nil]
  | cons w tail ih =>
    have hw := h w (List.mem_cons_self _ _)
    cases tail with
    | nil =>
      simpa [join_with_space] using split_whitespace_all_nonspace hw.1 hw.2
    | cons v ws' =>
      have ht : ∀ u ∈ v :: ws', u ≠ [] ∧ ∀ c ∈ u, is_py_space c = false :=
        fun u hu => h u (List.mem_cons_of_mem _ hu)
      simp only [join_with_space]
      rw [split_whitespace_word_space hw.1 hw.2, ih ht]

/-- The cleaning pipeline is idempotent on character lists. -/
theorem clean_query_for_lucene_idem (s : List Char) :
    clean_query_for_lucene (clean_query_for_lucene s) = clean_query_for_lucene s := by
  by_cases hs : s = []
  · subst hs
    simp [clean_query_for_lucene]
  · have hinner : clean_query_for_lucene s =
        join_with_space (split_whitespace (replace_special_chars s)) := by
      rw [clean_query_for_lucene, if_neg hs]
    by_cases ho : join_with_space (split_whitespace (replace_special_chars s)) = []
    · rw [hinner, ho]
      simp [clean_query_for_lucene]
    · rw [hinner, clean_query_for_lucene, if_neg ho]
      have hwords : ∀ w ∈ split_whitespace (replace_special_chars s),
          w ≠ [] ∧ ∀ c ∈ w, is_py_space c = false :=
        fun w hw => ⟨(mem_split_whitespace w hw).1,
          fun c hc => ((mem_split_whitespace w hw).2 c hc).1⟩
      have hnospecial : ∀ x ∈ join_with_space (split_whitespace (replace_special_chars s)),
          is_special_char x = false := by
        intro x hx
        rcases mem_join_with_space hx with hx | ⟨w, hw, hxw⟩
        · subst hx
          decide
        · have hxt := (mem_split_whitespace w hw).2 x hxw
          rcases mem_replace_special_chars hxt.2 with hsp | hsp
          · exact absurd (hsp ▸ hxt.1) (by simp [is_py_space])
          · exact hsp.1
      rw [replace_special_chars_fixpoint hnospecial, split_join hwords]

/-- C5: the query sanitizer is idempotent on every input string. -/
theorem clean_query_sanitizer_idempotent (s : String) :
    clean_query_str (clean_query_str s) = clean_query_str s :=
  congrArg String.mk (clean_query_for_lucene_idem s.data)

/-- C4 counterexample: the sanitizer does not strip the dollar sign, so the
input of end-to-end scenario A does not map to the spec's claimed output
"TOKEN bullish". -/
theorem clean_query_scenario_a_counterexample :
    clean_query_str "$TOKEN +bullish!" ≠ "TOKEN bullish" := by
  simp [clean_query_str, clean_query_for_lucene, replace_special_chars, replace_one,
    special_chars, split_whitespace, take_word, drop_word, is_py_space, join_with_space]

/-- C4 amended: the sanitizer maps "$TOKEN +bullish!" to "$TOKEN bullish"
(the plus and the exclamation mark are replaced, the dollar sign — not a
Lucene metacharacter — is kept). -/
theorem clean_query_scenario_a_amended :
    clean_query_str "$TOKEN +bullish!" = "$TOKEN bullish" := by
  simp [clean_query_str, clean_query_for_lucene, replace_special_chars, replace_one,
    special_chars, split_whitespace, take_word, drop_word, is_py_space, join_with_space]

/-! ### Search fetcher (C8) -/

/-- C8: the search fetcher returns at most `limit` records, and an
uninitialised connection or a raising backend degrades to an empty list
instead of failing the request. -/
theorem search_casts_limit_and_degrade (st : MongoState) (query : String) (limit : Nat) :
    (search_casts st query limit).length ≤ limit
    ∧ (st.connected = false → search_casts st query limit = [])
    ∧ (st.raises = true → search_casts st query limit = []) := by
  unfold search_casts search_mongo_casts
  cases hc : st.connected with
  | false => simp
  | true =>
    cases hr : st.raises with
    | true => simp
    | false =>
      refine ⟨?_, by simp, by simp⟩
      simp [List.length_take]

/-- C8 witness at a concrete down state. -/
theorem search_casts_limit_and_degrade_witness :
    (search_casts mongo_down "bullish" 5).length ≤ 5
    ∧ search_casts mongo_down "bullish" 5 = [] :=
  ⟨(search_casts_limit_and_degrade mongo_down "bullish" 5).1,
   (search_casts_limit_and_degrade mongo_down "bullish" 5).2.1 rfl⟩

/-! ### Auth rejection (C9) -/

/-- C9: a request with a mismatching api key is rejected with HTTP 401 before
any backend access: no cypher query is issued and the whole backing state —
the usage counter included — is unchanged. -/
theorem invalid_api_key_rejected_no_side_effects (secret : String) (st : SysState)
    (api_key query : String) (h : api_key ≠ secret) :
    fetch_weighted_casts secret st api_key query
      = (st, [], .httpError 401 "Invalid API key") := by
  unfold fetch_weighted_casts
  rw [if_pos h]

/-- C9 witness at a concrete state and key. -/
theorem invalid_api_key_rejected_no_side_effects_witness :
    fetch_weighted_casts "arbitrage.lol" sys_ok "wrong-key" "bullish"
      = (sys_ok, [], .httpError 401 "Invalid API key") :=
  invalid_api_key_rejected_no_side_effects "arbitrage.lol" sys_ok "wrong-key" "bullish"
    (by decide)

/-! ### Identity enricher (C6) -/

/-- C6: with the graph store reachable, the enricher issues exactly one
batched enrichment lookup when the distinct-fid set is non-empty — however
many hits produced it — and when the set is empty it issues no query at all
and the enrichment mapping is empty. -/
theorem enricher_single_batched_lookup (neo : Neo4jState) (hits : List ProcessedCast)
    (hup : neo.upAtEnrichment = true) :
    ((run_fid_enrichment neo (all_fids hits)).1.countP is_enrichment_lookup
        = if all_fids hits = [] then 0 else 1)
    ∧ (all_fids hits = [] →
        (run_fid_enrichment neo (all_fids hits)).1 = []
        ∧ ∀ k, build_fid_enrichment_map (run_fid_enrichment neo (all_fids hits)).2 k = none) := by
  unfold run_fid_enrichment
  by_cases hf : all_fids hits = []
  · simp [hf, build_fid_enrichment_map]
  · simp [hf, hup, List.countP_cons, List.countP_nil, is_enrichment_lookup]

/-- C6 witness: one hit, one fid, exactly one batched lookup. -/
theorem enricher_single_batched_lookup_witness :
    ((run_fid_enrichment neo_up (all_fids [p1])).1.countP is_enrichment_lookup
        = if all_fids [p1] = [] then 0 else 1)
    ∧ (all_fids [p1] = [] →
        (run_fid_enrichment neo_up (all_fids [p1])).1 = []
        ∧ ∀ k, build_fid_enrichment_map (run_fid_enrichment neo_up (all_fids [p1])).2 k = none) :=
  enricher_single_batched_lookup neo_up [p1] rfl

/-! ### Missing-profile defaults (C7) -/

theorem cred_scores_append (l1 l2 : List EnrichedCast) :
    cred_scores (l1 ++ l2) = cred_scores l1 ++ cred_scores l2 := by
  simp [cred_scores, List.filterMap_append]

/-- C7: a hit whose stringified author fid has no entry in the enrichment map
yields a record tagged with the raw provenance marker and a null credibility
score, and such a record never contributes to the average-credibility
computation (it is excluded, not counted as 0). -/
theorem missing_profile_raw_null_excluded (fidMap : String → Option EnrichData)
    (c : ProcessedCast) (h : fidMap (str_of_fid c.author_fid) = none) :
    (enrich_cast fidMap c).source = "mongo_raw"
    ∧ (enrich_cast fidMap c).author_farcaster_cred_score = none
    ∧ ∀ l1 l2 : List EnrichedCast,
        avg_cred_score (l1 ++ enrich_cast fidMap c :: l2) = avg_cred_score (l1 ++ l2) := by
  have hcast : enrich_cast fidMap c =
      { hash := c.hash, timestamp := c.timestamp, text := c.text,
        author_username := c.author_username, author_fid := c.author_fid,
        author_bio := "", author_farcaster_cred_score := none,
        wallet_eth_stables_value_usd := 0, farcaster_usdc_rewards_earned := 0,
        linked_accounts := [], linked_wallets := [], source := "mongo_raw" } := by
    unfold enrich_cast
    rw [h]
  refine ⟨by rw [hcast], by rw [hcast], fun l1 l2 => ?_⟩
  have hscores : cred_scores (l1 ++ enrich_cast fidMap c :: l2) = cred_scores (l1 ++ l2) := by
    rw [cred_scores_append, cred_scores_append]
    congr 1
    simp [cred_scores, List.filterMap_cons, hcast]
  unfold avg_cred_score
  rw [hscores]

/-- C7 witness: the empty enrichment map misses every fid. -/
theorem missing_profile_raw_null_excluded_witness :
    (enrich_cast (fun _ => none) p1).source = "mongo_raw"
    ∧ (enrich_cast (fun _ => none) p1).author_farcaster_cred_score = none
    ∧ ∀ l1 l2 : List EnrichedCast,
        avg_cred_score (l1 ++ enrich_cast (fun _ => none) p1 :: l2) = avg_cred_score (l1 ++ l2) :=
  missing_profile_raw_null_excluded (fun _ => none) p1 rfl

/-! ### Merge step keeps duplicates (C1) -/

/-- C1: the merge step of casts.py performs no deduplication by content hash:
two hits sharing hash "0xabc" both survive to the output, contradicting the
dedupe guarantee (and the code's own section comment). -/
theorem merge_step_keeps_duplicate_hashes :
    (combine_and_sort (fun _ => none) [p1, p2]).countP
      (fun c => decide (c.hash = some "0xabc")) = 2 := by
  unfold combine_and_sort sort_by_timestamp_desc
  rw [List.Perm.countP_eq _ (List.mergeSort_perm _ _)]
  decide

/-! ### Scorer (C2) -/

theorem unique_authors_length_le (l : List EnrichedCast) :
    (unique_authors l).length ≤ l.length :=
  le_trans (List.dedup_sublist _).length_le (List.length_filterMap_le _ _)

/-- C2 amended: for a non-empty record list, the weighted score is bounded by
the raw score whenever every present credibility score is nonnegative (the
code does not constrain the sign), and the two scores are equal iff every
record has a distinct truthy author or the raw score is 0 (e.g. when no
record carries a credibility score at all). -/
theorem weighted_score_le_raw_iff (l : List EnrichedCast) (hne : l ≠ []) :
    ((∀ q ∈ cred_scores l, 0 ≤ q) → weighted_score l ≤ raw_weighted_score l)
    ∧ (weighted_score l = raw_weighted_score l ↔
        (unique_authors l).length = l.length ∨ raw_weighted_score l = 0) := by
  have hn : 1 ≤ l.length := List.length_pos.mpr hne
  have hmax : (max 1 l.length : ℕ) = l.length := max_eq_right hn
  have hu : (unique_authors l).length ≤ l.length := unique_authors_length_le l
  have hnQ : (0 : ℚ) < (l.length : ℚ) := by exact_mod_cast hn
  have hdle : diversity_multiplier l ≤ 1 := min_le_left _ _
  have hdiv1 : diversity_multiplier l = 1 ↔ (unique_authors l).length = l.length := by
    unfold diversity_multiplier
    rw [hmax, min_eq_left_iff, one_le_div hnQ]
    constructor
    · intro hle
      exact le_antisymm hu (by exact_mod_cast hle)
    · intro heq
      exact_mod_cast le_of_eq heq.symm
  constructor
  · intro hq
    have havg : 0 ≤ avg_cred_score l := by
      unfold avg_cred_score
      split
      · exact le_refl 0
      · exact div_nonneg (List.sum_nonneg hq) (by positivity)
    have hraw : 0 ≤ raw_weighted_score l := mul_nonneg (by positivity) havg
    calc weighted_score l = raw_weighted_score l * diversity_multiplier l := rfl
      _ ≤ raw_weighted_score l * 1 := mul_le_mul_of_nonneg_left hdle hraw
      _ = raw_weighted_score l := mul_one _
  · constructor
    · intro heq
      by_cases hr0 : raw_weighted_score l = 0
      · exact Or.inr hr0
      · refine Or.inl (hdiv1.mp ?_)
        exact mul_left_cancel₀ hr0 (heq.trans (mul_one _).symm)
    · rintro (h | h)
      · unfold weighted_score
        rw [hdiv1.mpr h, mul_one]
      · unfold weighted_score
        rw [h, zero_mul]

/-- C2 witness: two records with distinct authors and credibility 2: the
bound holds and equality agrees with the distinct-author criterion. -/
theorem weighted_score_le_raw_iff_witness :
    ([e_a, e_b] ≠ ([] : List EnrichedCast))
    ∧ (((∀ q ∈ cred_scores [e_a, e_b], 0 ≤ q) →
          weighted_score [e_a, e_b] ≤ raw_weighted_score [e_a, e_b])
       ∧ (weighted_score [e_a, e_b] = raw_weighted_score [e_a, e_b] ↔
           (unique_authors [e_a, e_b]).length = ([e_a, e_b] : List EnrichedCast).length
           ∨ raw_weighted_score [e_a, e_b] = 0)) :=
  ⟨by decide, weighted_score_le_raw_iff [e_a, e_b] (by decide)⟩

/-- C2 counterexample: two records by the same author with no credibility
scores make the weighted and raw scores equal (both 0) although the
unique-author count differs from the record count, refuting the claimed
"equality iff all authors distinct"; and two records by the same author with
credibility -1 violate the claimed unconditional bound weighted ≤ raw. -/
theorem weighted_score_claim_counterexample :
    (weighted_score [e_dup, e_dup] = raw_weighted_score [e_dup, e_dup]
      ∧ (unique_authors [e_dup, e_dup]).length ≠ ([e_dup, e_dup] : List EnrichedCast).length)
    ∧ ¬ (weighted_score [e_neg, e_neg] ≤ raw_weighted_score [e_neg, e_neg]) := by
  refine ⟨⟨?_, ?_⟩, ?_⟩
  · norm_num [weighted_score, raw_weighted_score, avg_cred_score, cred_scores,
      diversity_multiplier, e_dup, base_enriched, List.filterMap_cons]
  · decide
  · have h1 : cred_scores [e_neg, e_neg] = [-1, -1] := by decide
    have h2 : unique_authors [e_neg, e_neg] = [1] := by decide
    norm_num [weighted_score, raw_weighted_score, avg_cred_score, h1, h2,
      diversity_multiplier, min_def, List.cons_ne_nil]

/-! ### Quota check surfaces as 500 (C3) -/

/-- C3: with a valid key and the stored counter at 250 the incremented
counter is 251 > 250, so the handler raises HTTPException(429) — but that
exception is caught by the blanket `except Exception` of the same try block
and re-raised as HTTPException(500, "Database error: 429: USAGE EXCEEDED").
The caller receives HTTP 500, not the 429 the claim (and the route's own
declared responses) promise. -/
theorem quota_exceeded_surfaces_as_500 :
    (fetch_weighted_casts "arbitrage.lol" sys_quota "arbitrage.lol" "bullish").2.2
      = HandlerResult.httpError 500 "Database error: 429: USAGE EXCEEDED" := by
  decide

/-! ### Usage counter increment (C10) -/

theorem run_pipeline_state (st : SysState) (q : String) : (run_pipeline st q).1 = st := rfl

theorem run_pipeline_ok (st : SysState) (q : String) :
    ∃ b, (run_pipeline st q).2.2 = Except.ok b := ⟨_, rfl⟩

/-- C10: every request that passes key validation and reaches the store
increments the persistent usage counter by exactly one (COALESCE(null,0)+1
for a null counter), before the threshold is checked: the request is
rejected — surfacing, per C3, as the 500 rewrite of the 429 — exactly when
the already-incremented value exceeds 250, and quota-rejected requests and
requests whose search or enrichment stages later fail (any mongo or
enrichment state is quantified over) still leave the counter incremented. -/
theorem usage_counter_incremented_before_check (secret : String) (st : SysState)
    (api_key query : String) (c : Option Int) (hkey : api_key = secret)
    (hup : st.neo4j.upAtUsage = true) (hnode : st.neo4j.usageNode = some c) :
    (fetch_weighted_casts secret st api_key query).1.neo4j.usageNode
        = some (some (c.getD 0 + 1))
    ∧ ((∃ status detail, (fetch_weighted_casts secret st api_key query).2.2
          = HandlerResult.httpError status detail) ↔ c.getD 0 + 1 > 250) := by
  subst hkey
  have hne : ¬ (api_key ≠ api_key) := fun hcon => hcon rfl
  have husage : execute_usage_query st.neo4j =
      ({ st.neo4j with usageNode := some (some (c.getD 0 + 1)) },
        Except.ok [c.getD 0 + 1]) := by
    unfold execute_usage_query
    simp [hup, hnode]
  by_cases hq : c.getD 0 + 1 > 250
  · have hbody : run_body st query =
        ({ st with neo4j := { st.neo4j with usageNode := some (some (c.getD 0 + 1)) } },
          [CypherQuery.usageCounter], .error (.http 429 "USAGE EXCEEDED")) := by
      unfold run_body
      rw [husage]
      simp [hq]
    unfold fetch_weighted_casts
    rw [if_neg hne, hbody]
    exact ⟨rfl, ⟨fun _ => hq, fun _ => ⟨500, _, rfl⟩⟩⟩
  · have hbody : run_body st query = run_pipeline
        { st with neo4j := { st.neo4j with usageNode := some (some (c.getD 0 + 1)) } }
        query := by
      unfold run_body
      rw [husage]
      simp [hq]
    unfold fetch_weighted_casts
    rw [if_neg hne, hbody]
    obtain ⟨b, hb⟩ := run_pipeline_ok
      { st with neo4j := { st.neo4j with usageNode := some (some (c.getD 0 + 1)) } } query
    rw [show (run_pipeline { st with neo4j := { st.neo4j with
        usageNode := some (some (c.getD 0 + 1)) } } query)
      = ({ st with neo4j := { st.neo4j with usageNode := some (some (c.getD 0 + 1)) } },
          (run_pipeline { st with neo4j := { st.neo4j with
            usageNode := some (some (c.getD 0 + 1)) } } query).2.1, Except.ok b) from ?_]
    · exact ⟨rfl, ⟨fun ⟨s, d, hsd⟩ => absurd hsd (by simp), fun hcon => absurd hcon hq⟩⟩
    · exact Prod.ext (run_pipeline_state _ _) (Prod.ext rfl hb)

/-- C10 witness: counter 0 becomes 1 and the request is not quota-rejected. -/
theorem usage_counter_incremented_before_check_witness :
    (fetch_weighted_casts "arbitrage.lol" sys_ok "arbitrage.lol" "bullish").1.neo4j.usageNode
        = some (some 1)
    ∧ ((∃ status detail,
          (fetch_weighted_casts "arbitrage.lol" sys_ok "arbitrage.lol" "bullish").2.2
            = HandlerResult.httpError status detail) ↔ (0 : Int) + 1 > 250) :=
  usage_counter_incremented_before_check "arbitrage.lol" sys_ok "arbitrage.lol" "bullish"
    (some 0) rfl rfl rfl

end FCS
